import Mathlib

/-!
Verification of the quote-normalization tool `replace-quotes.py`.

The program folds eight Unicode double-quote variants to the ASCII quote,
then replaces every ASCII quote by an alternating left/right typographic
quote, driven by a per-file toggle.  A batch driver runs the per-file
processor over a list of paths and derives a process exit code.

Text buffers are modelled as `List Char` (Python strings are sequences of
Unicode code points).  The filesystem is modelled as an association list
from paths to file entries; a file entry carries its content together with
readability/writability flags so that the failure branches of the backup,
read and write steps are reachable in the model.
-/

/-- `QUOTES_TO_REPLACE` from the source: the eight quote-variant
characters, folded to the ASCII quote, in source order. -/
def QUOTES_TO_REPLACE : List Char :=
  ['“', '”', '„', '‟', '″', '〝', '〞', '＂']

/-- `LEFT_QUOTE` from the source: U+201C. -/
def LEFT_QUOTE : Char := '“'

/-- `RIGHT_QUOTE` from the source: U+201D. -/
def RIGHT_QUOTE : Char := '”'

/-- One pass of Python `content.replace(q, '"')` for a single-character
needle and single-character replacement: a per-character substitution. -/
def replaceChar (s : List Char) (q : Char) (r : Char) : List Char :=
  s.map (fun c => if c = q then r else c)

/-- Lines 69-70 of the source: fold every quote variant to the ASCII
quote, one sequential `str.replace` per variant, in list order. -/
def foldQuotes (s : List Char) : List Char :=
  QUOTES_TO_REPLACE.foldl (fun acc q => replaceChar acc q '\"') s

/-- The simultaneous per-character version of the fold. -/
def foldChar (c : Char) : Char :=
  if c ∈ QUOTES_TO_REPLACE then '\"' else c

/-- Lines 76-89 of the source: the alternating replacement loop.  The
second argument is the `is_opening` toggle, initially `true`. -/
def pairQuotes : List Char → Bool → List Char
  | [], _ => []
  | c :: cs, isOp =>
    if c = '\"' then
      (if isOp then LEFT_QUOTE else RIGHT_QUOTE) :: pairQuotes cs (!isOp)
    else
      c :: pairQuotes cs isOp

/-- The whole normalizer (lines 69-89): variant folding followed by the
alternating replacement with the toggle initialized to opening. -/
def normalizeContent (s : List Char) : List Char :=
  pairQuotes (foldQuotes s) true

lemma foldChar_chain (c : Char) :
    (fun c => if c = '＂' then '\"' else c)
      ((fun c => if c = '〞' then '\"' else c)
      ((fun c => if c = '〝' then '\"' else c)
      ((fun c => if c = '″' then '\"' else c)
      ((fun c => if c = '‟' then '\"' else c)
      ((fun c => if c = '„' then '\"' else c)
      ((fun c => if c = '”' then '\"' else c)
      ((fun c => if c = '“' then '\"' else c) c))))))) = foldChar c := by
  by_cases h : c ∈ QUOTES_TO_REPLACE
  · simp only [QUOTES_TO_REPLACE, List.mem_cons, List.not_mem_nil, or_false] at h
    rcases h with h | h | h | h | h | h | h | h <;> subst h <;> rfl
  · simp only [QUOTES_TO_REPLACE, List.mem_cons, List.not_mem_nil, or_false,
      not_or] at h
    obtain ⟨h1, h2, h3, h4, h5, h6, h7, h8⟩ := h
    simp [foldChar, QUOTES_TO_REPLACE, h1, h2, h3, h4, h5, h6, h7, h8]

lemma foldQuotes_cons (c : Char) (cs : List Char) :
    foldQuotes (c :: cs) = foldChar c :: foldQuotes cs := by
  simp only [foldQuotes, QUOTES_TO_REPLACE, List.foldl_cons, List.foldl_nil,
    replaceChar, List.map_cons]
  refine congrArg₂ List.cons ?_ rfl
  exact foldChar_chain c

lemma foldQuotes_eq_map (s : List Char) : foldQuotes s = s.map foldChar := by
  induction s with
  | nil => rfl
  | cons c cs ih => rw [foldQuotes_cons, ih, List.map_cons]

lemma length_pairQuotes (t : List Char) (b : Bool) :
    (pairQuotes t b).length = t.length := by
  induction t generalizing b with
  | nil => rfl
  | cons c cs ih =>
    by_cases hc : c = '\"' <;> simp [pairQuotes, hc, ih]

lemma length_foldQuotes (s : List Char) :
    (foldQuotes s).length = s.length := by
  rw [foldQuotes_eq_map]; exact s.length_map foldChar

lemma pairQuotes_cons_quote (cs : List Char) (b : Bool) :
    pairQuotes ('\"' :: cs) b
      = (if b then LEFT_QUOTE else RIGHT_QUOTE) :: pairQuotes cs (!b) := by
  simp [pairQuotes]

lemma pairQuotes_cons_other (c : Char) (cs : List Char) (b : Bool)
    (hc : c ≠ '\"') :
    pairQuotes (c :: cs) b = c :: pairQuotes cs b := by
  simp [pairQuotes, hc]

lemma pairQuotes_getD (t : List Char) (b : Bool) (i : Nat) (h : i < t.length) :
    (pairQuotes t b).getD i ' ' =
      if t.getD i ' ' = '\"' then
        (if b = true ↔ ((t.take i).count '\"') % 2 = 0 then LEFT_QUOTE
         else RIGHT_QUOTE)
      else t.getD i ' ' := by
  induction t generalizing b i with
  | nil => simp at h
  | cons c cs ih =>
    by_cases hc : c = '\"'
    · subst hc
      rw [pairQuotes_cons_quote]
      cases i with
      | zero =>
        rw [List.getD_cons_zero, List.getD_cons_zero, if_pos rfl,
          List.take_zero, List.count_nil, Nat.zero_mod]
        cases b with
        | false => rw [if_neg (by decide), if_neg (by simp)]
        | true => rw [if_pos rfl, if_pos (by simp)]
      | succ i =>
        have hi : i < cs.length := by simpa using h
        rw [List.getD_cons_succ, List.getD_cons_succ, ih (!b) i hi,
          List.take_succ_cons, List.count_cons_self]
        by_cases hq : cs.getD i ' ' = '\"'
        · rw [if_pos hq, if_pos hq]
          have hiff : ((!b) = true ↔ ((cs.take i).count '\"') % 2 = 0) ↔
              (b = true ↔ ((cs.take i).count '\"' + 1) % 2 = 0) := by
            cases b <;> simp <;> omega
          exact if_congr hiff rfl rfl
        · rw [if_neg hq, if_neg hq]
    · rw [pairQuotes_cons_other c cs b hc]
      cases i with
      | zero =>
        rw [List.getD_cons_zero, List.getD_cons_zero, if_neg hc]
      | succ i =>
        have hi : i < cs.length := by simpa using h
        rw [List.getD_cons_succ, List.getD_cons_succ, ih b i hi,
          List.take_succ_cons, List.count_cons_of_ne (fun hx => hc hx.symm)]

lemma pairQuotes_count_quote (t : List Char) (b : Bool) :
    (pairQuotes t b).count '\"' = 0 := by
  induction t generalizing b with
  | nil => rfl
  | cons c cs ih =>
    by_cases hc : c = '\"'
    · subst hc
      cases b <;>
        simp [pairQuotes, ih, List.count_cons_of_ne, LEFT_QUOTE, RIGHT_QUOTE]
    · simp [pairQuotes, hc, ih, List.count_cons_of_ne (fun hx => hc hx.symm)]

lemma pairQuotes_count_left_right (t : List Char) (b : Bool)
    (hL : LEFT_QUOTE ∉ t) (hR : RIGHT_QUOTE ∉ t) :
    (pairQuotes t b).count LEFT_QUOTE + (pairQuotes t b).count RIGHT_QUOTE
      = t.count '\"' := by
  induction t generalizing b with
  | nil => rfl
  | cons c cs ih =>
    have hL' : LEFT_QUOTE ∉ cs := fun hx => hL (List.mem_cons_of_mem _ hx)
    have hR' : RIGHT_QUOTE ∉ cs := fun hx => hR (List.mem_cons_of_mem _ hx)
    have hcL : c ≠ LEFT_QUOTE := fun hx => hL (hx ▸ List.mem_cons_self _ _)
    have hcR : c ≠ RIGHT_QUOTE := fun hx => hR (hx ▸ List.mem_cons_self _ _)
    by_cases hc : c = '\"'
    · subst hc
      rw [pairQuotes_cons_quote, List.count_cons_self]
      cases b with
      | false =>
        rw [if_neg (by decide),
          List.count_cons_of_ne (by decide : LEFT_QUOTE ≠ RIGHT_QUOTE),
          List.count_cons_self]
        have hih := ih (!false) hL' hR'
        omega
      | true =>
        rw [if_pos rfl, List.count_cons_self,
          List.count_cons_of_ne (by decide : RIGHT_QUOTE ≠ LEFT_QUOTE)]
        have hih := ih (!true) hL' hR'
        omega
    · rw [pairQuotes_cons_other c cs b hc,
        List.count_cons_of_ne (fun hx => hcL hx.symm),
        List.count_cons_of_ne (fun hx => hcR hx.symm),
        List.count_cons_of_ne (fun hx => hc hx.symm)]
      exact ih b hL' hR'

lemma foldQuotes_no_variant (s : List Char) :
    ∀ c ∈ foldQuotes s, c ∉ QUOTES_TO_REPLACE := by
  intro c hc
  rw [foldQuotes_eq_map] at hc
  obtain ⟨a, _, rfl⟩ := List.mem_map.mp hc
  by_cases h : a ∈ QUOTES_TO_REPLACE
  · rw [foldChar, if_pos h]; decide
  · rwa [foldChar, if_neg h]

lemma foldChar_idem (c : Char) : foldChar (foldChar c) = foldChar c := by
  by_cases h : c ∈ QUOTES_TO_REPLACE
  · have h1 : foldChar c = '\"' := by rw [foldChar, if_pos h]
    rw [h1]; decide
  · have h1 : foldChar c = c := by rw [foldChar, if_neg h]
    rw [h1, h1]

/-- `SUPPORTED_EXTENSIONS` from the source (a Python set of strings;
order is irrelevant, only membership is used). -/
def SUPPORTED_EXTENSIONS : List (List Char) :=
  [".tex".toList, ".txt".toList, ".md".toList, ".markdown".toList,
   ".rst".toList, ".org".toList]

/-- Python `str.rfind` for a single character: the index of the last
occurrence, `-1` when absent. -/
def rfind : List Char → Char → Int
  | [], _ => -1
  | a :: as, c =>
    let r := rfind as c
    if r ≥ 0 then r + 1 else if a = c then 0 else -1

/-- The extension component of `os.path.splitext` (POSIX flavor, `sep`
is `/` and there is no `altsep`): the suffix starting at the last dot of
the basename, except that a basename consisting only of leading dots has
no extension. -/
def splitextExt (p : List Char) : List Char :=
  let sepIndex := rfind p '/'
  let dotIndex := rfind p '.'
  if sepIndex < dotIndex then
    if ((p.drop (sepIndex + 1).toNat).take (dotIndex - (sepIndex + 1)).toNat).any
        (fun c => c != '.') then
      p.drop dotIndex.toNat
    else []
  else []

/-- Python `str.lower` restricted to ASCII letters, which is all the
extension comparison in the source exercises. -/
def strLower (s : List Char) : List Char := s.map Char.toLower

/-- A file in the filesystem model: its text content, plus flags that
make the failure branches of copy/read/write reachable. -/
structure FileEntry where
  content : List Char
  readable : Bool
  writable : Bool
deriving DecidableEq

/-- The filesystem model: an association list from paths to files, with
the most recent write shadowing older entries. -/
def FS : Type := List (List Char × FileEntry)

instance : DecidableEq FS := by
  unfold FS; infer_instance

/-- The distinct outcomes of per-file processing: `success` models the
`(True, message)` return, the others the `(False, message)` returns of
each numbered failure branch of `replace_quotes_in_file`. -/
inductive FileResult where
  | success
  | notFound
  | unsupportedType
  | backupError
  | readError
  | writeError
deriving DecidableEq

/-- Whether a per-file outcome is the success return. -/
def resSuccess : FileResult → Bool
  | FileResult.success => true
  | _ => false

/-- The fixed backup suffix `'.bak'` from line 53 of the source. -/
def BAK_SUFFIX : List Char := ".bak".toList

/-- `replace_quotes_in_file` from the source, over the filesystem model:
existence check, extension check, optional backup via `shutil.copy2`
(fails iff the source is unreadable), read (fails iff unreadable),
normalization, write-back (fails iff unwritable).  Returns the updated
filesystem and the per-file outcome. -/
def replace_quotes_in_file (fs : FS) (filepath : List Char) (backup : Bool) :
    FS × FileResult :=
  match List.lookup filepath fs with
  | none => (fs, FileResult.notFound)
  | some file =>
    if strLower (splitextExt filepath) ∈ SUPPORTED_EXTENSIONS then
      if backup && !file.readable then
        (fs, FileResult.backupError)
      else
        let fs1 : FS :=
          if backup then (filepath ++ BAK_SUFFIX, file) :: fs else fs
        if !file.readable then
          (fs1, FileResult.readError)
        else
          if file.writable then
            ((filepath,
              { file with content := normalizeContent file.content }) :: fs1,
             FileResult.success)
          else
            (fs1, FileResult.writeError)
    else
      (fs, FileResult.unsupportedType)

/-- The per-file loop of `main` (lines 137-148): process each path in
order on the evolving filesystem, collecting each file's success flag. -/
def processFiles (fs : FS) (paths : List (List Char)) (backup : Bool) :
    FS × List Bool :=
  match paths with
  | [] => (fs, [])
  | p :: rest =>
    let r1 := replace_quotes_in_file fs p backup
    let rrest := processFiles r1.1 rest backup
    (rrest.1, resSuccess r1.2 :: rrest.2)

/-- The exit status computed at line 156 of the source:
`0 if success_count == total_files else 1`. -/
def exitCode (fs : FS) (paths : List (List Char)) (backup : Bool) : Nat :=
  if (processFiles fs paths backup).2.count true = paths.length then 0 else 1

/-- Whether a path resolves to a readable file in the filesystem model. -/
def readableFileAt (fs : FS) (p : List Char) : Bool :=
  match List.lookup p fs with
  | some f => f.readable
  | none => false

/-- Input for the C1 witness: one variant quote and one ASCII quote. -/
def C1demo : List Char := ['a', '„', 'b', '\"']

/-- Input for the C3 witness: non-quote characters around one quote. -/
def C3demo : List Char := ['x', '\"', 'y']

/-- Path for the C4 witness. -/
def C4path : List Char := "notes.pdf".toList

/-- File entry for the C4 witness. -/
def C4file : FileEntry :=
  { content := "a \"b\" c".toList, readable := true, writable := true }

/-- Filesystem for the C4 witness. -/
def C4fs : FS := [(C4path, C4file)]

/-- Path for the C5 counterexample. -/
def C5path : List Char := "u.txt".toList

/-- File entry for the C5 counterexample: the file exists but is not
readable. -/
def C5file : FileEntry :=
  { content := "\"x\"".toList, readable := false, writable := true }

/-- Filesystem for the C5 counterexample. -/
def C5fs : FS := [(C5path, C5file)]

/-- Filesystem for the C5 witness: empty, so no path exists. -/
def C5emptyFs : FS := []

/-- Path for the C5 witness. -/
def C5missing : List Char := "gone.txt".toList

/-- Path for the C6 witness. -/
def C6path : List Char := "a.txt".toList

/-- File entry for the C6 witness: readable and writable. -/
def C6file : FileEntry :=
  { content := "say \"hi\"".toList, readable := true, writable := true }

/-- Filesystem for the C6 witness. -/
def C6fs : FS := [(C6path, C6file)]

/-- Paths for the C7 witness, mirroring the batch-independence example
of the spec: a valid `.tex`, an invalid `.pdf`, a valid `.txt`. -/
def C7paths : List (List Char) :=
  ["a.tex".toList, "b.pdf".toList, "c.txt".toList]

/-- Filesystem for the C7 witness. -/
def C7fs : FS :=
  [("a.tex".toList,
    { content := "\"x\"".toList, readable := true, writable := true }),
   ("b.pdf".toList,
    { content := "y".toList, readable := true, writable := true }),
   ("c.txt".toList,
    { content := "z".toList, readable := true, writable := true })]

/-- Basename tail for the C10 witness: the path is `.txt`. -/
def C10rest : List Char := "txt".toList

/-- File entry for the C10 witness. -/
def C10file : FileEntry :=
  { content := "\"q\"".toList, readable := true, writable := true }

/-- Filesystem for the C10 witness: a file literally named `.txt`. -/
def C10fs : FS := [(([] : List Char) ++ '.' :: C10rest, C10file)]

lemma rfind_cons (a : Char) (as : List Char) (c : Char) :
    rfind (a :: as) c =
      if rfind as c ≥ 0 then rfind as c + 1
      else if a = c then 0 else -1 := rfl

lemma rfind_not_mem (s : List Char) (c : Char) (h : c ∉ s) :
    rfind s c = -1 := by
  induction s with
  | nil => rfl
  | cons a as ih =>
    have ha : a ≠ c := fun hx => h (hx ▸ List.mem_cons_self _ _)
    have h' : c ∉ as := fun hx => h (List.mem_cons_of_mem _ hx)
    rw [rfind_cons, ih h']
    norm_num [ha]

lemma rfind_neg_eq (s : List Char) (c : Char) (h : ¬ rfind s c ≥ 0) :
    rfind s c = -1 := by
  induction s with
  | nil => rfl
  | cons a as ih =>
    rw [rfind_cons] at h ⊢
    by_cases h1 : rfind as c ≥ 0
    · rw [if_pos h1] at h; omega
    · rw [if_neg h1] at h ⊢
      by_cases h2 : a = c
      · rw [if_pos h2] at h; omega
      · rw [if_neg h2]

lemma rfind_append (xs ys : List Char) (c : Char) :
    rfind (xs ++ ys) c =
      if rfind ys c ≥ 0 then (xs.length : Int) + rfind ys c
      else rfind xs c := by
  induction xs with
  | nil =>
    by_cases hy : rfind ys c ≥ 0
    · rw [List.nil_append, if_pos hy, List.length_nil]; omega
    · rw [List.nil_append, if_neg hy, rfind_neg_eq ys c hy]; rfl
  | cons a as ih =>
    rw [List.cons_append, rfind_cons, ih, rfind_cons]
    by_cases hy : rfind ys c ≥ 0
    · rw [if_pos hy, if_pos hy,
        if_pos (by omega : (as.length : Int) + rfind ys c ≥ 0)]
      simp only [List.length_cons]
      push_cast
      omega
    · rw [if_neg hy, if_neg hy]

lemma splitextExt_eq_nil (p : List Char)
    (h : rfind p '.' = rfind p '/' + 1) :
    splitextExt p = [] := by
  simp only [splitextExt, h]
  rw [if_pos (by omega : rfind p '/' < rfind p '/' + 1)]
  rw [show rfind p '/' + 1 - (rfind p '/' + 1) = 0 by omega]
  simp

lemma count_take_succ_of_getD (t : List Char) (i : Nat) (h : i < t.length)
    (hq : t.getD i ' ' = '\"') :
    (t.take (i + 1)).count '\"' = (t.take i).count '\"' + 1 := by
  induction t generalizing i with
  | nil => simp at h
  | cons a as ih =>
    cases i with
    | zero =>
      rw [List.getD_cons_zero] at hq
      subst hq
      simp
    | succ i =>
      rw [List.getD_cons_succ] at hq
      have hi : i < as.length := by simpa using h
      rw [List.take_succ_cons, List.take_succ_cons]
      by_cases ha : a = '\"'
      · rw [ha, List.count_cons_self, List.count_cons_self, ih i hi hq]
      · rw [List.count_cons_of_ne (fun hx => ha hx.symm),
          List.count_cons_of_ne (fun hx => ha hx.symm), ih i hi hq]

lemma getD_foldQuotes (s : List Char) (i : Nat) (h : i < s.length) :
    (foldQuotes s).getD i ' ' = foldChar (s.getD i ' ') := by
  induction s generalizing i with
  | nil => simp at h
  | cons a as ih =>
    rw [foldQuotes_cons]
    cases i with
    | zero => rw [List.getD_cons_zero, List.getD_cons_zero]
    | succ i =>
      have hi : i < as.length := by simpa using h
      rw [List.getD_cons_succ, List.getD_cons_succ, ih i hi]

lemma pairQuotes_id (t : List Char) (b : Bool) (h : ∀ c ∈ t, c ≠ '\"') :
    pairQuotes t b = t := by
  induction t generalizing b with
  | nil => rfl
  | cons c cs ih =>
    rw [pairQuotes_cons_other c cs b (h c (List.mem_cons_self _ _)),
      ih b (fun x hx => h x (List.mem_cons_of_mem _ hx))]

lemma foldQuotes_id (s : List Char) (h : ∀ c ∈ s, c ∉ QUOTES_TO_REPLACE) :
    foldQuotes s = s := by
  induction s with
  | nil => rfl
  | cons a as ih =>
    rw [foldQuotes_cons, foldChar, if_neg (h a (List.mem_cons_self _ _)),
      ih (fun x hx => h x (List.mem_cons_of_mem _ hx))]

lemma processFiles_length (fs : FS) (paths : List (List Char)) (b : Bool) :
    (processFiles fs paths b).2.length = paths.length := by
  induction paths generalizing fs with
  | nil => rfl
  | cons p rest ih => simp [processFiles, ih]

/-- C1: after folding every quote variant to the ASCII quote, the n-th
ASCII-quote occurrence (1-indexed, left to right) is replaced by
`LEFT_QUOTE` when n is odd and by `RIGHT_QUOTE` when n is even; hence in
a buffer with an odd total quote count the last occurrence gets
`LEFT_QUOTE`. -/
theorem C1_alternation_law (s : List Char) :
    (∀ i, i < (foldQuotes s).length → (foldQuotes s).getD i ' ' = '\"' →
      (normalizeContent s).getD i ' ' =
        (if (((foldQuotes s).take (i + 1)).count '\"') % 2 = 1 then LEFT_QUOTE
         else RIGHT_QUOTE))
    ∧ (((foldQuotes s).count '\"') % 2 = 1 →
       ∀ i, i < (foldQuotes s).length → (foldQuotes s).getD i ' ' = '\"' →
         ((foldQuotes s).drop (i + 1)).count '\"' = 0 →
         (normalizeContent s).getD i ' ' = LEFT_QUOTE) := by
  have hmain : ∀ i, i < (foldQuotes s).length →
      (foldQuotes s).getD i ' ' = '\"' →
      (normalizeContent s).getD i ' ' =
        (if (((foldQuotes s).take (i + 1)).count '\"') % 2 = 1 then LEFT_QUOTE
         else RIGHT_QUOTE) := by
    intro i h hq
    rw [normalizeContent, pairQuotes_getD (foldQuotes s) true i h, if_pos hq,
      count_take_succ_of_getD (foldQuotes s) i h hq]
    refine if_congr ?_ rfl rfl
    constructor
    · intro hx
      have hx0 := hx.mp rfl
      omega
    · intro hx
      constructor
      · intro _; omega
      · intro _; rfl
  refine ⟨hmain, ?_⟩
  intro hodd i h hq hlast
  have h2 : ((foldQuotes s).take (i + 1)).count '\"'
      + ((foldQuotes s).drop (i + 1)).count '\"'
      = (foldQuotes s).count '\"' := by
    rw [← List.count_append, List.take_append_drop]
  have hcnt : ((foldQuotes s).take (i + 1)).count '\"'
      = (foldQuotes s).count '\"' := by omega
  rw [hmain i h hq, hcnt, if_pos hodd]

/-- Witness for C1 at a concrete buffer: position 1 holds the first
quote, which becomes the left quote. -/
theorem C1_witness : (normalizeContent C1demo).getD 1 ' ' = LEFT_QUOTE := by
  have h := (C1_alternation_law C1demo).1 1 (by decide) (by decide)
  rw [h]; decide

/-- C2: the ASCII-quote count of the folded buffer equals the LEFT count
plus the RIGHT count of the output, and no ASCII quote remains in the
output. -/
theorem C2_total_pairing (s : List Char) :
    (foldQuotes s).count '\"'
      = (normalizeContent s).count LEFT_QUOTE
        + (normalizeContent s).count RIGHT_QUOTE
    ∧ (normalizeContent s).count '\"' = 0 := by
  have hL : LEFT_QUOTE ∉ foldQuotes s := fun hx =>
    foldQuotes_no_variant s _ hx (by decide)
  have hR : RIGHT_QUOTE ∉ foldQuotes s := fun hx =>
    foldQuotes_no_variant s _ hx (by decide)
  exact ⟨(pairQuotes_count_left_right (foldQuotes s) true hL hR).symm,
    pairQuotes_count_quote (foldQuotes s) true⟩

/-- C3: a character that is neither a quote variant nor the ASCII quote
is unchanged in position and value; a buffer with no quote variants and
no ASCII quotes is returned unchanged. -/
theorem C3_non_quote_preservation (s : List Char) :
    (∀ i, i < s.length → s.getD i ' ' ∉ QUOTES_TO_REPLACE →
      s.getD i ' ' ≠ '\"' →
      (normalizeContent s).getD i ' ' = s.getD i ' ')
    ∧ ((∀ c ∈ s, c ∉ QUOTES_TO_REPLACE ∧ c ≠ '\"') →
      normalizeContent s = s) := by
  constructor
  · intro i h hv hq
    have hlen : i < (foldQuotes s).length := by rw [length_foldQuotes]; exact h
    have hfold : (foldQuotes s).getD i ' ' = s.getD i ' ' := by
      rw [getD_foldQuotes s i h, foldChar, if_neg hv]
    rw [normalizeContent, pairQuotes_getD (foldQuotes s) true i hlen, hfold,
      if_neg hq]
  · intro hall
    rw [normalizeContent, foldQuotes_id s (fun c hc => (hall c hc).1),
      pairQuotes_id s true (fun c hc => (hall c hc).2)]

/-- Witness for C3 at a concrete buffer: position 0 is not a quote and
is preserved. -/
theorem C3_witness : (normalizeContent C3demo).getD 0 ' ' = C3demo.getD 0 ' ' :=
  (C3_non_quote_preservation C3demo).1 0 (by decide) (by decide) (by decide)

/-- C8: variant folding is idempotent, and no variant character occurs
in the output of one fold pass. -/
theorem C8_folding_idempotence (s : List Char) :
    foldQuotes (foldQuotes s) = foldQuotes s
    ∧ ∀ c ∈ foldQuotes s, c ∉ QUOTES_TO_REPLACE := by
  refine ⟨?_, foldQuotes_no_variant s⟩
  induction s with
  | nil => rfl
  | cons a as ih => rw [foldQuotes_cons, foldQuotes_cons, foldChar_idem, ih]

/-- C9: the normalization transform preserves the number of characters
of the buffer. -/
theorem C9_length_preservation (s : List Char) :
    (normalizeContent s).length = s.length := by
  rw [normalizeContent, length_pairQuotes, length_foldQuotes]

/-- C4: an existing file whose suffix (compared case-insensitively) is
not in the supported set fails with the unsupported-type error; the
filesystem is unchanged, so no backup is created and no content is
modified. -/
theorem C4_extension_gating (fs : FS) (p : List Char) (b : Bool)
    (f : FileEntry) (hex : List.lookup p fs = some f)
    (hext : strLower (splitextExt p) ∉ SUPPORTED_EXTENSIONS) :
    replace_quotes_in_file fs p b = (fs, FileResult.unsupportedType) := by
  simp only [replace_quotes_in_file, hex]
  rw [if_neg hext]

/-- Witness for C4: an existing `notes.pdf` is rejected with the
unsupported-type error and the filesystem is untouched. -/
theorem C4_witness :
    replace_quotes_in_file C4fs C4path true
      = (C4fs, FileResult.unsupportedType) :=
  C4_extension_gating C4fs C4path true C4file (by rfl) (by decide)

/-- C5 (amended): a path that does not exist fails with the not-found
error before any other step; the filesystem is unchanged, so no backup
is attempted. -/
theorem C5_not_found (fs : FS) (p : List Char) (b : Bool)
    (h : List.lookup p fs = none) :
    replace_quotes_in_file fs p b = (fs, FileResult.notFound) := by
  simp only [replace_quotes_in_file, h]

/-- Counterexample to C5 as stated: `u.txt` exists but is not readable,
so it does not resolve to a readable file, yet processing passes the
existence check (which only tests existence) and fails later with the
backup error, not the not-found error. -/
theorem C5_counterexample :
    readableFileAt C5fs C5path = false
    ∧ (replace_quotes_in_file C5fs C5path true).2 = FileResult.backupError
    ∧ FileResult.backupError ≠ FileResult.notFound := by
  refine ⟨by decide, by decide, by decide⟩

/-- Witness for the amended C5: a missing path yields the not-found
error with the filesystem unchanged. -/
theorem C5_witness :
    replace_quotes_in_file C5emptyFs C5missing true
      = (C5emptyFs, FileResult.notFound) :=
  C5_not_found C5emptyFs C5missing true (by rfl)

/-- C6: when backup is enabled and the file passes the existence and
extension checks, a readable file gets a backup at `path + '.bak'` whose
entry equals the pre-transform file (content and metadata), even after
the original is overwritten; when the backup copy fails (unreadable
source), processing stops with the backup error and the filesystem is
unchanged. -/
theorem C6_backup_fidelity (fs : FS) (p : List Char) (f : FileEntry)
    (hex : List.lookup p fs = some f)
    (hext : strLower (splitextExt p) ∈ SUPPORTED_EXTENSIONS) :
    (f.readable = true →
      List.lookup (p ++ BAK_SUFFIX) (replace_quotes_in_file fs p true).1
        = some f)
    ∧ (f.readable = false →
      replace_quotes_in_file fs p true = (fs, FileResult.backupError)) := by
  have hne : (p ++ BAK_SUFFIX == p) = false := by
    refine beq_eq_false_iff_ne.mpr ?_
    intro hcontra
    have hlencontra := congrArg List.length hcontra
    simp [BAK_SUFFIX] at hlencontra
  constructor
  · intro hr
    simp only [replace_quotes_in_file, hex, if_pos hext, hr, Bool.not_true,
      Bool.and_false, Bool.false_eq_true, if_false, if_true]
    by_cases hw : f.writable
    · rw [if_pos hw]
      simp only [List.lookup, hne, beq_self_eq_true, if_false, if_true]
    · rw [if_neg hw]
      simp only [List.lookup, beq_self_eq_true, if_true]
  · intro hr
    simp only [replace_quotes_in_file, hex, if_pos hext, hr]
    rfl

/-- Witness for C6: after processing `a.txt` with backup enabled, the
backup entry at `a.txt.bak` equals the pre-transform file even though
the original has been transformed. -/
theorem C6_witness :
    List.lookup (C6path ++ BAK_SUFFIX)
      (replace_quotes_in_file C6fs C6path true).1 = some C6file :=
  (C6_backup_fidelity C6fs C6path C6file (by rfl) (by decide)).1 rfl

/-- C7: the batch driver produces one result per supplied path (a
failure never prevents later files from being processed, and processing
of a cons batch always continues into the tail), and the exit status is
0 exactly when every file succeeded, else 1. -/
theorem C7_exit_status (fs : FS) (paths : List (List Char)) (b : Bool) :
    (processFiles fs paths b).2.length = paths.length
    ∧ (∀ q rest, (processFiles fs (q :: rest) b).2
        = resSuccess (replace_quotes_in_file fs q b).2
          :: (processFiles (replace_quotes_in_file fs q b).1 rest b).2)
    ∧ (exitCode fs paths b = 0 ↔
        ∀ r ∈ (processFiles fs paths b).2, r = true)
    ∧ (exitCode fs paths b = 0 ∨ exitCode fs paths b = 1) := by
  refine ⟨processFiles_length fs paths b, fun q rest => rfl, ?_, ?_⟩
  · rw [exitCode]
    constructor
    · intro h0
      by_cases hc : (processFiles fs paths b).2.count true = paths.length
      · intro r hr
        have hlen := processFiles_length fs paths b
        have hcl : (processFiles fs paths b).2.count true
            = (processFiles fs paths b).2.length := by omega
        exact (List.count_eq_length.mp hcl r hr).symm
      · rw [if_neg hc] at h0
        exact absurd h0 one_ne_zero
    · intro hall
      have hlen := processFiles_length fs paths b
      have hcl : (processFiles fs paths b).2.count true
          = (processFiles fs paths b).2.length :=
        List.count_eq_length.mpr (fun r hr => (hall r hr).symm)
      rw [if_pos (by omega)]
  · rw [exitCode]
    by_cases hc : (processFiles fs paths b).2.count true = paths.length
    · rw [if_pos hc]; left; rfl
    · rw [if_neg hc]; right; rfl

/-- Witness for C7: the batch theorem instantiated at a concrete batch
where the middle file fails; all three files still produce a result and
the exit code is 1. -/
theorem C7_witness :
    ((processFiles C7fs C7paths true).2.length = C7paths.length
      ∧ (∀ q rest, (processFiles C7fs (q :: rest) true).2
          = resSuccess (replace_quotes_in_file C7fs q true).2
            :: (processFiles (replace_quotes_in_file C7fs q true).1 rest
                  true).2)
      ∧ (exitCode C7fs C7paths true = 0 ↔
          ∀ r ∈ (processFiles C7fs C7paths true).2, r = true)
      ∧ (exitCode C7fs C7paths true = 0 ∨ exitCode C7fs C7paths true = 1))
    ∧ (processFiles C7fs C7paths true).2 = [true, false, true]
    ∧ exitCode C7fs C7paths true = 1 :=
  ⟨C7_exit_status C7fs C7paths true, by decide, by decide⟩

/-- C10: a path whose basename is a single leading dot followed by a
dot-free suffix (such as a file literally named `.txt`, whose whole name
is itself in the supported set) yields an empty extension under
`os.path.splitext`, so the file is rejected as an unsupported type. -/
theorem C10_dot_basename_rejected (dir rest : List Char) (fs : FS) (b : Bool)
    (f : FileEntry)
    (hdir : dir = [] ∨ ∃ d, dir = d ++ ['/'])
    (hdot : '.' ∉ rest) (hsep : '/' ∉ rest)
    (_hsup : strLower ('.' :: rest) ∈ SUPPORTED_EXTENSIONS)
    (hex : List.lookup (dir ++ '.' :: rest) fs = some f) :
    splitextExt (dir ++ '.' :: rest) = []
    ∧ replace_quotes_in_file fs (dir ++ '.' :: rest) b
        = (fs, FileResult.unsupportedType) := by
  have hsepRest : '/' ∉ ('.' :: rest) := by
    intro hx
    rcases List.mem_cons.mp hx with hx | hx
    · exact absurd hx (by decide)
    · exact hsep hx
  have hdotRest : rfind ('.' :: rest) '.' = 0 := by
    rw [rfind_cons, rfind_not_mem rest '.' hdot]
    norm_num
  have hnil : splitextExt (dir ++ '.' :: rest) = [] := by
    rcases hdir with hdir | ⟨d, hdir⟩
    · subst hdir
      rw [List.nil_append]
      refine splitextExt_eq_nil _ ?_
      rw [hdotRest, rfind_not_mem _ '/' hsepRest]
      norm_num
    · subst hdir
      have hassoc : (d ++ ['/']) ++ '.' :: rest = d ++ ('/' :: '.' :: rest) := by
        rw [List.append_assoc]; rfl
      rw [hassoc]
      refine splitextExt_eq_nil _ ?_
      have hys1 : rfind ('/' :: '.' :: rest) '.' = 1 := by
        rw [rfind_cons, hdotRest]
        norm_num
      have hys2 : rfind ('/' :: '.' :: rest) '/' = 0 := by
        rw [rfind_cons, rfind_not_mem _ '/' hsepRest]
        norm_num
      rw [rfind_append, rfind_append, hys1, hys2]
      rw [if_pos (by norm_num), if_pos (by norm_num)]
      omega
  refine ⟨hnil, ?_⟩
  have hnot : strLower (splitextExt (dir ++ '.' :: rest))
      ∉ SUPPORTED_EXTENSIONS := by
    rw [hnil]
    decide
  exact C4_extension_gating fs (dir ++ '.' :: rest) b f hex hnot

/-- Witness for C10: the file named `.txt` yields an empty extension and
is rejected as an unsupported type. -/
theorem C10_witness :
    splitextExt (([] : List Char) ++ '.' :: C10rest) = []
    ∧ replace_quotes_in_file C10fs (([] : List Char) ++ '.' :: C10rest) true
        = (C10fs, FileResult.unsupportedType) :=
  C10_dot_basename_rejected [] C10rest C10fs true C10file (Or.inl rfl)
    (by decide) (by decide) (by decide) (by rfl)
